import Mathlib

/-!
Shallow embedding of the ReductStore Kubernetes charm (`src/charm.py`).

Strings from the Python code are modelled as `List Char`.  The URL handling
(`urllib.parse.urlsplit` / `urlunsplit`) is embedded faithfully following the
CPython implementation restricted to what the charm exercises.
-/

namespace Reductstore

/-- Characters CPython's `urlsplit` allows in a URL scheme
(letters, digits, `+`, `-`, `.`). -/
def isSchemeChar (c : Char) : Bool :=
  c.isAlpha || c.isDigit || c == '+' || c == '-' || c == '.'

/-- Result of `urllib.parse.urlsplit`. -/
structure SplitResult where
  scheme : List Char
  netloc : List Char
  path : List Char
  query : List Char
  fragment : List Char
deriving Repr, DecidableEq

/-- Scheme-splitting step of CPython `urlsplit`: if the string has a colon at
position `i > 0`, its head is an ASCII letter and every character before the
colon is a scheme character, the scheme is the lowercased part before the
colon and the remainder follows the colon; otherwise the scheme is empty. -/
def splitScheme (url : List Char) : List Char × List Char :=
  let pre := url.takeWhile (fun c => c != ':')
  match url.dropWhile (fun c => c != ':') with
  | [] => ([], url)
  | _ :: rest =>
    if (!pre.isEmpty) && (pre.headD ' ').isAlpha && pre.all isSchemeChar then
      (pre.map Char.toLower, rest)
    else
      ([], url)

/-- Characters terminating the network-location part in `urlsplit`. -/
def isNetlocEnd (c : Char) : Bool :=
  c == '/' || c == '?' || c == '#'

/-- CPython `_splitnetloc` (after the leading `//` has been dropped): the
netloc runs until the first of `/`, `?`, `#`. -/
def splitNetloc (s : List Char) : List Char × List Char :=
  (s.takeWhile (fun c => !isNetlocEnd c), s.dropWhile (fun c => !isNetlocEnd c))

/-- Python `s.split(sep, 1)` when `sep` occurs, else `(s, "")`; mirrors the
fragment and query splitting in `urlsplit`. -/
def splitOn (sep : Char) (s : List Char) : List Char × List Char :=
  match s.dropWhile (fun c => c != sep) with
  | [] => (s, [])
  | _ :: rest => (s.takeWhile (fun c => c != sep), rest)

/-- CPython `urllib.parse.urlsplit` (with `allow_fragments=True`). -/
def urlsplit (url : List Char) : SplitResult :=
  let s1 := splitScheme url
  let s2 :=
    if s1.2.take 2 == ['/', '/'] then splitNetloc (s1.2.drop 2)
    else ([], s1.2)
  let s3 := splitOn '#' s2.2
  let s4 := splitOn '?' s3.1
  ⟨s1.1, s2.1, s4.1, s4.2, s3.2⟩

/-- CPython `urllib.parse.urlunsplit` (also the `geturl` of a `SplitResult`). -/
def urlunsplit (r : SplitResult) : List Char :=
  let url := r.path
  let url :=
    if (!r.netloc.isEmpty) || url.take 2 == ['/', '/'] then
      let url' := if (!url.isEmpty) && !(url.headD ' ' == '/') then '/' :: url else url
      '/' :: '/' :: (r.netloc ++ url')
    else url
  let url := if !r.scheme.isEmpty then r.scheme ++ ':' :: url else url
  let url := if !r.query.isEmpty then url ++ '?' :: r.query else url
  if !r.fragment.isEmpty then url ++ '#' :: r.fragment else url

/-- First normalization step of `_api_base_path`:
`if path and not path.startswith("/"): path = "/" + path`. -/
def prependSlash (p : List Char) : List Char :=
  if (!p.isEmpty) && !(p.headD ' ' == '/') then '/' :: p else p

/-- Second normalization step of `_api_base_path`:
`if len(path) > 1 and path.endswith("/"): path = path[:-1]`. -/
def stripTrail (p : List Char) : List Char :=
  if p.length > 1 && p.getLast? == some '/' then p.dropLast else p

/-- `ReductstoreCharm._api_base_path`: the configured `api-base-path` (or the
default `/model-app` when unset or empty), given a leading `/` when missing,
and with a single trailing `/` removed when the result is longer than one
character. -/
def api_base_path (cfgBase modelName appName : List Char) : List Char :=
  stripTrail (prependSlash
    (if cfgBase.isEmpty then '/' :: (modelName ++ '-' :: appName) else cfgBase))

/-- `ReductstoreCharm.external_api_url`: empty when no ingress URL is stored,
otherwise the stored URL's scheme and netloc with the base path (or `/` when
that is empty) and no query or fragment. -/
def external_api_url (ingress_url cfgBase modelName appName : List Char) : List Char :=
  if ingress_url.isEmpty then []
  else
    let parts := urlsplit ingress_url
    let path := api_base_path cfgBase modelName appName
    urlunsplit ⟨parts.scheme, parts.netloc, if path.isEmpty then ['/'] else path, [], []⟩

/-- `ReductstoreCharm._public_ui_url`: the base URL with its path replaced by
the base path followed by `/ui/dashboard`, query and fragment cleared. -/
def public_ui_url (base_url cfgBase modelName appName : List Char) : List Char :=
  let parts := urlsplit base_url
  let path := api_base_path cfgBase modelName appName ++ "/ui/dashboard".toList
  urlunsplit ⟨parts.scheme, parts.netloc, path, [], []⟩

/-- `ReductstoreCharm.external_ui_url`: empty when no ingress URL is stored,
otherwise `_public_ui_url` of the stored URL. -/
def external_ui_url (ingress_url cfgBase modelName appName : List Char) : List Char :=
  if ingress_url.isEmpty then []
  else public_ui_url ingress_url cfgBase modelName appName

example :
    external_api_url "https://custom.example.com".toList "/custom/api/path".toList
      "m".toList "a".toList
    = "https://custom.example.com/custom/api/path".toList := by rfl

example :
    external_ui_url "https://custom.example.com".toList "/custom/api/path".toList
      "m".toList "a".toList
    = "https://custom.example.com/custom/api/path/ui/dashboard".toList := by rfl

example :
    external_api_url "https://custom.example.com/some/path?q=1#f".toList
      "/custom/api/path".toList "m".toList "a".toList
    = "https://custom.example.com/custom/api/path".toList := by rfl

example :
    external_api_url "https://myapp.example.com".toList [] "model".toList "app".toList
    = "https://myapp.example.com/model-app".toList := by rfl

example : api_base_path "/foo//".toList "m".toList "a".toList = "/foo/".toList := by rfl

example : api_base_path "foo/".toList "m".toList "a".toList = "/foo".toList := by rfl

/-- Unit status as set by the charm (`ops.ActiveStatus` carries an optional
message, `ops.BlockedStatus` and `ops.MaintenanceStatus` carry a message). -/
inductive Status where
  | active (msg : List Char)
  | blocked (msg : List Char)
  | maintenance (msg : List Char)
deriving Repr, DecidableEq

/-- Charm configuration as read from `self.model.config`.  An unset option
reads as the empty string (Python falsy), matching the `or`-defaulting in the
code. -/
structure Config where
  log_level : List Char
  license_path : List Char
  api_base_path : List Char
deriving Repr, DecidableEq

/-- Outcome of `self.model.resources.fetch("reductstore-license")`:
a local path, a `ModelError` (resource not attached), or any other error. -/
inductive FetchResult where
  | ok (path : List Char)
  | modelError (msg : List Char)
  | otherError (msg : List Char)
deriving Repr, DecidableEq

/-- External world the handlers interact with: whether the workload container
is reachable, what fetching the license resource yields, whether
`container.push` succeeds (raising `ops.pebble.APIError` otherwise), and
whether `add_layer`/`replan` succeed (raising `ops.pebble.ConnectionError`
otherwise). -/
structure Env where
  can_connect : Bool
  fetch : FetchResult
  push_ok : Bool
  layer_conn_ok : Bool
deriving Repr, DecidableEq

/-- Persisted charm state: the stored ingress URL and the current unit
status. -/
structure CharmState where
  ingress_url : List Char
  status : Status
deriving Repr, DecidableEq

/-- The license destination `config.get("license-path") or "/reduct.lic"`. -/
def lic_dst (cfg : Config) : List Char :=
  if cfg.license_path.isEmpty then "/reduct.lic".toList else cfg.license_path

/-- What `_ensure_license` did: its boolean result, the status it set (none
when it left the status alone), whether it deferred the event, and the
destination it pushed the license bytes to (none when no push happened). -/
structure EnsureOutcome where
  success : Bool
  status : Option Status
  deferred : Bool
  pushed : Option (List Char)
deriving Repr, DecidableEq

/-- `ReductstoreCharm._ensure_license`. -/
def ensure_license (cfg : Config) (env : Env) : EnsureOutcome :=
  if !env.can_connect then
    ⟨false, some (.maintenance "waiting for Pebble API".toList), true, none⟩
  else
    match env.fetch with
    | .modelError _ =>
      ⟨false, some (.blocked "Attach resource 'reductstore-license'".toList), false, none⟩
    | .otherError e =>
      ⟨false, some (.blocked ("Attach resource 'reductstore-license': ".toList ++ e)),
        false, none⟩
    | .ok _ =>
      if env.push_ok then ⟨true, none, false, some (lic_dst cfg)⟩
      else ⟨false, none, true, none⟩

/-- Environment of the single `reductstore` service in
`ReductstoreCharm._pebble_layer`. -/
structure ServiceEnv where
  rs_log_level : List Char
  rs_port : List Char
  rs_data_path : List Char
  rs_license_path : List Char
  rs_api_base_path : List Char
deriving Repr, DecidableEq

/-- `ReductstoreCharm._pebble_layer`, restricted to the service environment
(the other layer fields are string constants). -/
def pebble_layer (cfg : Config) (modelName appName : List Char) : ServiceEnv :=
  ⟨cfg.log_level.map Char.toUpper, "8383".toList, "/data".toList,
    cfg.license_path, api_base_path cfg.api_base_path modelName appName⟩

/-- `VALID_LOG_LEVELS` from the charm module. -/
def VALID_LOG_LEVELS : List (List Char) :=
  ["info".toList, "debug".toList, "warning".toList, "error".toList, "critical".toList]

/-- Python `s.rstrip("/")`: remove every trailing `/`. -/
def rstripSlash (s : List Char) : List Char :=
  (s.reverse.dropWhile (fun c => c == '/')).reverse

/-- `CatalogueItem` as built by `ReductstoreCharm._catalogue_item`, restricted
to the fields that vary (name, display URL, endpoint map in insertion
order). -/
structure CatalogueItem where
  name : List Char
  url : List Char
  endpoints : List (List Char × List Char)
deriving Repr, DecidableEq

/-- `ReductstoreCharm._catalogue_item`. -/
def catalogue_item (stored_url : List Char) (cfg : Config)
    (modelName appName : List Char) : CatalogueItem :=
  let api := external_api_url stored_url cfg.api_base_path modelName appName
  let ui := external_ui_url stored_url cfg.api_base_path modelName appName
  let eps :=
    (if !ui.isEmpty then [("UI".toList, ui)] else []) ++
    (if !api.isEmpty then
      [("REST API".toList, api),
       ("Server Info".toList, rstripSlash api ++ "/api/v1/info".toList)]
     else [])
  ⟨"ReductStore".toList, ui, eps⟩

/-- Observable outcome of one event handler: the resulting unit status,
whether the event was deferred, the license push destination (if a push
happened), the declared run layer (if `add_layer` ran), whether `replan` ran,
and the catalogue item pushed (if `update_item` ran). -/
structure HandlerResult where
  status : Status
  deferred : Bool
  pushed : Option (List Char)
  layer : Option ServiceEnv
  replanned : Bool
  catalogue : Option CatalogueItem
deriving Repr, DecidableEq

/-- `ReductstoreCharm._on_reductstore_pebble_ready`. -/
def on_pebble_ready (cfg : Config) (env : Env) (st : CharmState)
    (modelName appName : List Char) : HandlerResult :=
  let eo := ensure_license cfg env
  if !eo.success then
    ⟨eo.status.getD st.status, eo.deferred, eo.pushed, none, false, none⟩
  else
    ⟨.active [], eo.deferred, eo.pushed, some (pebble_layer cfg modelName appName),
      true, none⟩

/-- `ReductstoreCharm._on_config_changed`. -/
def on_config_changed (cfg : Config) (env : Env) (st : CharmState)
    (modelName appName : List Char) : HandlerResult :=
  let ll := cfg.log_level.map Char.toLower
  if !(VALID_LOG_LEVELS.contains ll) then
    ⟨.blocked ("invalid log level: '".toList ++ ll ++ "'".toList),
      false, none, none, false, none⟩
  else
    let eo := ensure_license cfg env
    if !eo.success then
      ⟨eo.status.getD st.status, eo.deferred, eo.pushed, none, false, none⟩
    else if !env.layer_conn_ok then
      ⟨.maintenance "waiting for Pebble API".toList, true, eo.pushed, none, false, none⟩
    else
      ⟨.active [], eo.deferred, eo.pushed, some (pebble_layer cfg modelName appName),
        true, some (catalogue_item st.ingress_url cfg modelName appName)⟩

/-- `ReductstoreCharm._on_ingress_ready`: store the event URL, push the
recomputed catalogue item, set Active status naming the URL. -/
def on_ingress_ready (event_url : List Char) (cfg : Config) (_st : CharmState)
    (modelName appName : List Char) : CharmState × CatalogueItem :=
  (⟨event_url, .active ("Ingress at ".toList ++ event_url)⟩,
    catalogue_item event_url cfg modelName appName)

/-- `ReductstoreCharm._on_ingress_revoked`: clear the stored URL, push the
recomputed catalogue item, set Maintenance status. -/
def on_ingress_revoked (cfg : Config) (_st : CharmState)
    (modelName appName : List Char) : CharmState × CatalogueItem :=
  (⟨[], .maintenance "Waiting for ingress".toList⟩,
    catalogue_item [] cfg modelName appName)

/-- `ReductstoreCharm._on_update_status` (also observed for `upgrade_charm`):
when the container is reachable, run `_ensure_license` and nothing else;
otherwise do nothing at all. -/
def on_update_status (cfg : Config) (env : Env) (st : CharmState) : HandlerResult :=
  if env.can_connect then
    let eo := ensure_license cfg env
    ⟨eo.status.getD st.status, eo.deferred, eo.pushed, none, false, none⟩
  else
    ⟨st.status, false, none, none, false, none⟩

/-- Bool test that `needle` is a prefix of `hay`. -/
def listStarts : List Char → List Char → Bool
  | [], _ => true
  | _ :: _, [] => false
  | a :: as, b :: bs => a == b && listStarts as bs

/-- Bool test that `needle` occurs contiguously inside `hay`. -/
def hasSub (needle : List Char) : List Char → Bool
  | [] => needle.isEmpty
  | c :: rest => listStarts needle (c :: rest) || hasSub needle rest

theorem listStarts_append (u t : List Char) : listStarts u (u ++ t) = true := by
  induction u with
  | nil => rfl
  | cons c cs ih => simp [listStarts, ih]

theorem hasSub_self_append (u post : List Char) : hasSub u (u ++ post) = true := by
  cases u with
  | nil =>
    cases post with
    | nil => rfl
    | cons c cs =>
      simp only [hasSub, List.nil_append, Bool.or_eq_true]
      exact Or.inl rfl
  | cons c cs =>
    simp only [hasSub, List.cons_append, Bool.or_eq_true]
    exact Or.inl (listStarts_append (c :: cs) post)

theorem hasSub_parts (pre u post : List Char) : hasSub u (pre ++ (u ++ post)) = true := by
  induction pre with
  | nil => simpa using hasSub_self_append u post
  | cons c cs ih => simp [hasSub, ih]

theorem prependSlash_starts (p : List Char) (hp : p ≠ []) :
    ∃ t, prependSlash p = '/' :: t := by
  cases p with
  | nil => exact absurd rfl hp
  | cons c cs =>
    rcases eq_or_ne c '/' with rfl | hc
    · exact ⟨cs, by simp [prependSlash]⟩
    · exact ⟨c :: cs, by simp [prependSlash, hc]⟩

theorem stripTrail_starts (t : List Char) : ∃ u, stripTrail ('/' :: t) = '/' :: u := by
  cases t with
  | nil => exact ⟨[], by simp [stripTrail]⟩
  | cons x xs =>
    by_cases h : ('/' :: x :: xs).getLast? = some '/'
    · refine ⟨(x :: xs).dropLast, ?_⟩
      have hcond : (('/' :: x :: xs).length > 1 && (('/' :: x :: xs).getLast? == some '/'))
          = true := by
        simp [h]
      unfold stripTrail
      rw [if_pos hcond]
      rfl
    · have h' : ¬(x :: xs).getLast? = some '/' := by
        intro hx
        exact h (by simp [hx])
      exact ⟨x :: xs, by simp [stripTrail, h']⟩

theorem api_base_path_starts (cfgBase m a : List Char) :
    ∃ t, api_base_path cfgBase m a = '/' :: t := by
  unfold api_base_path
  by_cases h : cfgBase.isEmpty
  · rw [if_pos h]
    have hp : prependSlash ('/' :: (m ++ '-' :: a)) = '/' :: (m ++ '-' :: a) := by
      simp [prependSlash]
    rw [hp]
    exact stripTrail_starts _
  · rw [if_neg h]
    have hne : cfgBase ≠ [] := by
      intro hnil
      rw [hnil] at h
      exact h rfl
    obtain ⟨t, ht⟩ := prependSlash_starts cfgBase hne
    rw [ht]
    exact stripTrail_starts t

theorem api_base_path_ne_nil (cfgBase m a : List Char) :
    api_base_path cfgBase m a ≠ [] := by
  obtain ⟨t, ht⟩ := api_base_path_starts cfgBase m a
  rw [ht]
  exact List.cons_ne_nil _ _

theorem schemeChar_ne_colon {c : Char} (h : isSchemeChar c = true) : (c != ':') = true := by
  rcases eq_or_ne c ':' with rfl | hne
  · exact absurd h (by decide)
  · simp [hne]

theorem splitScheme_absolute (c : Char) (t rest : List Char)
    (hc : c.isAlpha = true) (hsc : ((c :: t).all isSchemeChar) = true) :
    splitScheme ((c :: t) ++ ':' :: rest) = ((c :: t).map Char.toLower, rest) := by
  have hall : ∀ x ∈ (c :: t), (x != ':') = true := by
    intro x hx
    exact schemeChar_ne_colon (List.all_eq_true.mp hsc x hx)
  simp only [splitScheme]
  rw [List.takeWhile_append_of_pos hall, List.dropWhile_append_of_pos hall]
  simp [List.takeWhile_cons, List.dropWhile_cons, hc, hsc]

theorem urlsplit_absolute (c : Char) (t h r : List Char)
    (hc : c.isAlpha = true) (hsc : ((c :: t).all isSchemeChar) = true)
    (hh : (h.all fun x => !isNetlocEnd x) = true)
    (hr : r = [] ∨ ∃ d r2, r = d :: r2 ∧ isNetlocEnd d = true) :
    (urlsplit ((c :: t) ++ ':' :: '/' :: '/' :: (h ++ r))).scheme
        = (c :: t).map Char.toLower ∧
    (urlsplit ((c :: t) ++ ':' :: '/' :: '/' :: (h ++ r))).netloc = h := by
  have hallh : ∀ x ∈ h, (!isNetlocEnd x) = true := fun x hx =>
    List.all_eq_true.mp hh x hx
  have htw : (h ++ r).takeWhile (fun x => !isNetlocEnd x) = h := by
    rw [List.takeWhile_append_of_pos hallh]
    rcases hr with rfl | ⟨d, r2, rfl, hd⟩
    · simp
    · simp [List.takeWhile_cons, hd]
  simp only [urlsplit]
  rw [splitScheme_absolute c t _ hc hsc]
  simp [splitNetloc, htw]

theorem urlunsplit_abs (s0 : Char) (ss : List Char) (n0 : Char) (ns q : List Char) :
    urlunsplit ⟨s0 :: ss, n0 :: ns, '/' :: q, [], []⟩
      = (s0 :: ss) ++ ':' :: '/' :: '/' :: ((n0 :: ns) ++ '/' :: q) := by
  simp [urlunsplit]

theorem external_api_url_cons (c : Char) (l cfgBase m a : List Char) :
    external_api_url (c :: l) cfgBase m a
      = urlunsplit ⟨(urlsplit (c :: l)).scheme, (urlsplit (c :: l)).netloc,
          (if (api_base_path cfgBase m a).isEmpty then ['/']
           else api_base_path cfgBase m a), [], []⟩ := rfl

theorem external_ui_url_cons (c : Char) (l cfgBase m a : List Char) :
    external_ui_url (c :: l) cfgBase m a
      = urlunsplit ⟨(urlsplit (c :: l)).scheme, (urlsplit (c :: l)).netloc,
          api_base_path cfgBase m a ++ "/ui/dashboard".toList, [], []⟩ := rfl

/-- C1: for an empty stored ingress URL both `external_api_url` and
`external_ui_url` are empty; for an absolute stored URL
`scheme://host<rest>` (scheme starting with a letter and made of scheme
characters, host free of `/`, `?`, `#`, and `<rest>` either empty or
starting with `/`, `?` or `#`, i.e. the URL's own path/query/fragment),
`external_api_url` is scheme+host followed by the normalized base path —
the URL's own path, query and fragment are discarded — and
`external_ui_url` is the same with the literal `/ui/dashboard` appended. -/
theorem C1_url_deriver (c : Char) (t h r cfgBase m a : List Char)
    (hc : c.isAlpha = true)
    (hsc : ((c :: t).all isSchemeChar) = true)
    (hh : (h.all fun x => !isNetlocEnd x) = true)
    (hhne : h ≠ [])
    (hr : r = [] ∨ ∃ d r2, r = d :: r2 ∧ isNetlocEnd d = true) :
    external_api_url [] cfgBase m a = [] ∧
    external_ui_url [] cfgBase m a = [] ∧
    external_api_url ((c :: t) ++ ':' :: '/' :: '/' :: (h ++ r)) cfgBase m a
      = (c :: t).map Char.toLower ++ ':' :: '/' :: '/'
          :: (h ++ api_base_path cfgBase m a) ∧
    external_ui_url ((c :: t) ++ ':' :: '/' :: '/' :: (h ++ r)) cfgBase m a
      = (c :: t).map Char.toLower ++ ':' :: '/' :: '/'
          :: (h ++ (api_base_path cfgBase m a ++ "/ui/dashboard".toList)) := by
  obtain ⟨bp, hbp⟩ := api_base_path_starts cfgBase m a
  obtain ⟨n0, ns, rfl⟩ := List.exists_cons_of_ne_nil hhne
  have hsplit := urlsplit_absolute c t (n0 :: ns) r hc hsc hh hr
  refine ⟨rfl, rfl, ?_, ?_⟩
  · rw [List.cons_append, external_api_url_cons, ← List.cons_append,
      hsplit.1, hsplit.2, hbp]
    simp only [List.isEmpty_cons, Bool.false_eq_true, if_false, List.map_cons]
    rw [urlunsplit_abs]
  · rw [List.cons_append, external_ui_url_cons, ← List.cons_append,
      hsplit.1, hsplit.2, hbp]
    simp only [List.map_cons, List.cons_append]
    rw [urlunsplit_abs]
    simp

/-- Witness for C1 at the spec's worked example. -/
theorem C1_url_deriver_witness :
    external_api_url "https://custom.example.com".toList "/custom/api/path".toList
        "mdl".toList "app".toList
      = "https://custom.example.com/custom/api/path".toList ∧
    external_ui_url "https://custom.example.com".toList "/custom/api/path".toList
        "mdl".toList "app".toList
      = "https://custom.example.com/custom/api/path/ui/dashboard".toList := by
  have H := C1_url_deriver 'h' "ttps".toList "custom.example.com".toList []
    "/custom/api/path".toList "mdl".toList "app".toList
    (by decide) (by decide) (by decide) (by decide) (Or.inl rfl)
  exact ⟨H.2.2.1.trans (by decide), H.2.2.2.trans (by decide)⟩

theorem stripTrail_no_trailing (q : List Char)
    (hq : q ≠ [])
    (h2 : ∀ l, q ≠ l ++ ['/', '/']) :
    (stripTrail q).getLast? = some '/' → stripTrail q = ['/'] := by
  rcases List.eq_nil_or_concat q with rfl | ⟨L, x, rfl⟩
  · exact absurd rfl hq
  · simp only [List.concat_eq_append] at h2 ⊢
    rcases eq_or_ne x '/' with rfl | hx
    · rcases List.eq_nil_or_concat L with rfl | ⟨L2, y, rfl⟩
      · intro _
        rfl
      · simp only [List.concat_eq_append] at h2 ⊢
        have hy : y ≠ '/' := by
          intro hy
          subst hy
          exact h2 L2 (by simp)
        have hcond : (decide ((L2 ++ [y] ++ ['/']).length > 1)
            && ((L2 ++ [y] ++ ['/']).getLast? == some '/')) = true := by
          simp
        have hstrip : stripTrail (L2 ++ [y] ++ ['/']) = L2 ++ [y] := by
          unfold stripTrail
          rw [if_pos hcond]
          simp
        rw [hstrip]
        intro hlast
        rw [List.getLast?_concat] at hlast
        exact absurd (Option.some.inj hlast) hy
    · have hcond : (decide ((L ++ [x]).length > 1)
          && ((L ++ [x]).getLast? == some '/')) = false := by
        simp [List.getLast?_concat, hx]
      have hstrip : stripTrail (L ++ [x]) = L ++ [x] := by
        unfold stripTrail
        rw [hcond]
        simp
      rw [hstrip]
      intro hlast
      rw [List.getLast?_concat] at hlast
      exact absurd (Option.some.inj hlast) hx

/-- C2 counterexample: with `api-base-path` set to `/foo//`, the computed base
path is `/foo/`, which still ends with `/` although it is not exactly `/`. -/
theorem C2_counterexample :
    api_base_path "/foo//".toList "mdl".toList "app".toList = "/foo/".toList ∧
    ("/foo/".toList).getLast? = some '/' ∧
    "/foo/".toList ≠ ['/'] := by
  exact ⟨by decide, by decide, by decide⟩

/-- C2 amended: the computed base path always starts with `/`; and provided
the configured value does not end in two consecutive slashes (the code strips
only one trailing slash) and the app name contains no `/`, the result never
ends with `/` unless it is exactly `/`. -/
theorem C2_base_path_normalized (cfgBase m a : List Char)
    (hcfg : ∀ l, cfgBase ≠ l ++ ['/', '/'])
    (ha : '/' ∉ a) :
    (∃ t, api_base_path cfgBase m a = '/' :: t) ∧
    ((api_base_path cfgBase m a).getLast? = some '/' →
      api_base_path cfgBase m a = ['/']) := by
  refine ⟨api_base_path_starts cfgBase m a, ?_⟩
  unfold api_base_path
  by_cases hempty : cfgBase.isEmpty
  · rw [if_pos hempty]
    have hqfix : prependSlash ('/' :: (m ++ '-' :: a)) = '/' :: (m ++ '-' :: a) := by
      simp [prependSlash]
    rw [hqfix]
    apply stripTrail_no_trailing
    · exact List.cons_ne_nil _ _
    · intro l heq
      have hl : ('/' :: (m ++ '-' :: a)).getLast? = some '/' := by
        rw [heq]
        have hsplit2 : l ++ ['/', '/'] = (l ++ ['/']) ++ ['/'] := by simp
        rw [hsplit2, List.getLast?_concat]
      rcases List.eq_nil_or_concat a with rfl | ⟨a2, z, rfl⟩
      · have hform : ('/' :: (m ++ '-' :: ([] : List Char))) = ('/' :: m) ++ ['-'] := by
          simp
        rw [hform, List.getLast?_concat] at hl
        exact absurd (Option.some.inj hl) (by decide)
      · have hz : z ≠ '/' := by
          intro hzeq
          subst hzeq
          exact ha (by simp [List.concat_eq_append])
        have hform : ('/' :: (m ++ '-' :: (a2.concat z)))
            = ('/' :: (m ++ '-' :: a2)) ++ [z] := by
          simp [List.concat_eq_append]
        rw [hform, List.getLast?_concat] at hl
        exact absurd (Option.some.inj hl) hz
  · rw [if_neg hempty]
    have hne : cfgBase ≠ [] := by
      intro hnil
      rw [hnil] at hempty
      exact hempty rfl
    obtain ⟨c0, cs, rfl⟩ := List.exists_cons_of_ne_nil hne
    apply stripTrail_no_trailing
    · rcases prependSlash_starts (c0 :: cs) (List.cons_ne_nil _ _) with ⟨t, ht⟩
      rw [ht]
      exact List.cons_ne_nil _ _
    · intro l heq
      rcases eq_or_ne c0 '/' with rfl | hc0
      · have hqfix : prependSlash ('/' :: cs) = '/' :: cs := by simp [prependSlash]
        rw [hqfix] at heq
        exact hcfg l heq
      · have hqfix : prependSlash (c0 :: cs) = '/' :: c0 :: cs := by
          simp [prependSlash, hc0]
        rw [hqfix] at heq
        cases l with
        | nil =>
          simp only [List.nil_append] at heq
          have := (List.cons.injEq _ _ _ _).mp heq
          exact hc0 ((List.cons.injEq _ _ _ _).mp this.2).1
        | cons d l2 =>
          rw [List.cons_append] at heq
          injection heq with h1 h2
          exact hcfg l2 h2

/-- Witness for the C2 amended theorem at a concrete configuration. -/
theorem C2_base_path_normalized_witness :
    (∃ t, api_base_path "/x".toList "mdl".toList "app".toList = '/' :: t) ∧
    ((api_base_path "/x".toList "mdl".toList "app".toList).getLast? = some '/' →
      api_base_path "/x".toList "mdl".toList "app".toList = ['/']) := by
  have hcfg : ∀ l, "/x".toList ≠ l ++ ['/', '/'] := by
    intro l hlx
    have hfix : "/x".toList = ['/', 'x'] := rfl
    rw [hfix] at hlx
    cases l with
    | nil => exact absurd hlx (by decide)
    | cons d l2 =>
      have hlen := congrArg List.length hlx
      simp only [List.length_cons, List.length_append, List.length_nil] at hlen
      omega
  exact C2_base_path_normalized "/x".toList "mdl".toList "app".toList hcfg (by decide)

/-- C3 counterexample: with `log-level` set to `VERBOSE`, the Blocked message
contains the lowercased value `verbose`, not the configured value in its
original casing `VERBOSE`. -/
theorem C3_counterexample :
    (on_config_changed ⟨"VERBOSE".toList, "/x.lic".toList, []⟩
        ⟨true, .ok "/tmp/lic".toList, true, true⟩
        ⟨[], .active []⟩ "mdl".toList "app".toList).status
      = .blocked "invalid log level: 'verbose'".toList ∧
    hasSub "VERBOSE".toList "invalid log level: 'verbose'".toList = false := by
  exact ⟨by decide, by decide⟩

/-- C3 amended: configuration-changed with a `log-level` whose lowercasing is
not one of the five recognized values sets Blocked with message
`invalid log level: '<lowercased value>'` (the message contains the
lowercased configured value, not necessarily its original casing) and
performs no further side effects: no push, no layer, no replan, no
catalogue update, no deferral. -/
theorem C3_invalid_log_level (cfg : Config) (env : Env) (st : CharmState)
    (m a : List Char)
    (hinv : cfg.log_level.map Char.toLower ∉ VALID_LOG_LEVELS) :
    on_config_changed cfg env st m a
      = ⟨.blocked ("invalid log level: '".toList
            ++ cfg.log_level.map Char.toLower ++ "'".toList),
          false, none, none, false, none⟩ ∧
    hasSub (cfg.log_level.map Char.toLower)
        ("invalid log level: '".toList
          ++ cfg.log_level.map Char.toLower ++ "'".toList) = true := by
  constructor
  · simp [on_config_changed, hinv]
  · simpa [List.append_assoc] using
      hasSub_parts "invalid log level: '".toList
        (cfg.log_level.map Char.toLower) "'".toList

/-- Witness for the C3 amended theorem at the invalid value `foobar`. -/
theorem C3_invalid_log_level_witness :
    on_config_changed ⟨"foobar".toList, "/x.lic".toList, []⟩
        ⟨true, .ok "/tmp/lic".toList, true, true⟩ ⟨[], .active []⟩
        "mdl".toList "app".toList
      = ⟨.blocked ("invalid log level: '".toList
            ++ "foobar".toList.map Char.toLower ++ "'".toList),
          false, none, none, false, none⟩ ∧
    hasSub ("foobar".toList.map Char.toLower)
        ("invalid log level: '".toList
          ++ "foobar".toList.map Char.toLower ++ "'".toList) = true :=
  C3_invalid_log_level ⟨"foobar".toList, "/x.lic".toList, []⟩
    ⟨true, .ok "/tmp/lic".toList, true, true⟩ ⟨[], .active []⟩
    "mdl".toList "app".toList (by decide)

/-- C4: configuration-changed with a valid `log-level`, a reachable
container, a successful license fetch and push, and a working layer API
yields Active status and declares a run layer whose service environment is
exactly RS_LOG_LEVEL = level uppercased, RS_PORT = 8383, RS_DATA_PATH =
/data, RS_LICENSE_PATH = the configured license path, RS_API_BASE_PATH =
the derived base path. -/
theorem C4_valid_level_layer (cfg : Config) (env : Env) (st : CharmState)
    (m a p : List Char)
    (hll : cfg.log_level ∈ VALID_LOG_LEVELS)
    (henv : env.can_connect = true)
    (hf : env.fetch = .ok p)
    (hp : env.push_ok = true)
    (hl : env.layer_conn_ok = true) :
    (on_config_changed cfg env st m a).status = .active [] ∧
    (on_config_changed cfg env st m a).layer
      = some ⟨cfg.log_level.map Char.toUpper, "8383".toList, "/data".toList,
          cfg.license_path, api_base_path cfg.api_base_path m a⟩ ∧
    (on_config_changed cfg env st m a).replanned = true := by
  have hmem : cfg.log_level.map Char.toLower ∈ VALID_LOG_LEVELS := by
    simp only [VALID_LOG_LEVELS, List.mem_cons, List.not_mem_nil,
      or_false] at hll ⊢
    rcases hll with h | h | h | h | h <;> rw [h] <;> decide
  refine ⟨?_, ?_, ?_⟩ <;>
    simp [on_config_changed, hmem, ensure_license, henv, hf, hp, hl,
      pebble_layer]

/-- Witness for C4 at `log-level=info`. -/
theorem C4_valid_level_layer_witness :
    (on_config_changed ⟨"info".toList, "/lic".toList, "/base".toList⟩
        ⟨true, .ok "/res".toList, true, true⟩ ⟨[], .active []⟩
        "mdl".toList "app".toList).status = .active [] ∧
    (on_config_changed ⟨"info".toList, "/lic".toList, "/base".toList⟩
        ⟨true, .ok "/res".toList, true, true⟩ ⟨[], .active []⟩
        "mdl".toList "app".toList).layer
      = some ⟨"info".toList.map Char.toUpper, "8383".toList, "/data".toList,
          "/lic".toList, api_base_path "/base".toList "mdl".toList "app".toList⟩ ∧
    (on_config_changed ⟨"info".toList, "/lic".toList, "/base".toList⟩
        ⟨true, .ok "/res".toList, true, true⟩ ⟨[], .active []⟩
        "mdl".toList "app".toList).replanned = true :=
  C4_valid_level_layer ⟨"info".toList, "/lic".toList, "/base".toList⟩
    ⟨true, .ok "/res".toList, true, true⟩ ⟨[], .active []⟩
    "mdl".toList "app".toList "/res".toList (by decide) rfl rfl rfl rfl

/-- C5: when the license resource fetch raises `ModelError` on a
workload-ready event with a reachable container, the unit becomes Blocked
with a message containing `reductstore-license`, `_ensure_license` returns
failure, and no layer is added and no replan happens. -/
theorem C5_license_missing (cfg : Config) (env : Env) (st : CharmState)
    (m a e : List Char)
    (henv : env.can_connect = true)
    (hf : env.fetch = .modelError e) :
    on_pebble_ready cfg env st m a
      = ⟨.blocked "Attach resource 'reductstore-license'".toList,
          false, none, none, false, none⟩ ∧
    hasSub "reductstore-license".toList
        "Attach resource 'reductstore-license'".toList = true ∧
    (ensure_license cfg env).success = false := by
  refine ⟨?_, by decide, ?_⟩
  · simp [on_pebble_ready, ensure_license, henv, hf]
  · simp [ensure_license, henv, hf]

/-- Witness for C5 at a concrete missing-resource environment. -/
theorem C5_license_missing_witness :
    on_pebble_ready ⟨"info".toList, [], []⟩
        ⟨true, .modelError "resource not found".toList, true, true⟩
        ⟨[], .maintenance []⟩ "mdl".toList "app".toList
      = ⟨.blocked "Attach resource 'reductstore-license'".toList,
          false, none, none, false, none⟩ ∧
    hasSub "reductstore-license".toList
        "Attach resource 'reductstore-license'".toList = true ∧
    (ensure_license ⟨"info".toList, [], []⟩
        ⟨true, .modelError "resource not found".toList, true, true⟩).success
      = false :=
  C5_license_missing ⟨"info".toList, [], []⟩
    ⟨true, .modelError "resource not found".toList, true, true⟩
    ⟨[], .maintenance []⟩ "mdl".toList "app".toList
    "resource not found".toList rfl rfl

/-- C6 counterexample: on a missing resource (`ModelError` with text
`resource not found`), the Blocked message is exactly
`Attach resource 'reductstore-license'` and does not include the underlying
error text. -/
theorem C6_counterexample :
    (ensure_license ⟨"info".toList, [], []⟩
        ⟨true, .modelError "resource not found".toList, true, true⟩).status
      = some (.blocked "Attach resource 'reductstore-license'".toList) ∧
    hasSub "resource not found".toList
        "Attach resource 'reductstore-license'".toList = false := by
  exact ⟨by decide, by decide⟩

/-- C6 amended: every license-fetch failure yields Blocked naming the
resource; only the non-`ModelError` failures append `: <detail>` with the
underlying error text, while the resource-missing case carries the fixed
message without detail. -/
theorem C6_blocked_messages (cfg : Config) (env : Env) (e : List Char)
    (henv : env.can_connect = true) :
    (env.fetch = .modelError e →
      (ensure_license cfg env).status
        = some (.blocked "Attach resource 'reductstore-license'".toList)) ∧
    (env.fetch = .otherError e →
      (ensure_license cfg env).status
        = some (.blocked
            ("Attach resource 'reductstore-license': ".toList ++ e)) ∧
      hasSub e ("Attach resource 'reductstore-license': ".toList ++ e)
        = true) := by
  constructor
  · intro hf
    simp [ensure_license, henv, hf]
  · intro hf
    refine ⟨by simp [ensure_license, henv, hf], ?_⟩
    simpa using hasSub_parts "Attach resource 'reductstore-license': ".toList e []

/-- Witness for the C6 amended theorem at a concrete fetch error. -/
theorem C6_blocked_messages_witness :
    (ensure_license ⟨"info".toList, [], []⟩
        ⟨true, .otherError "permission denied".toList, true, true⟩).status
      = some (.blocked
          ("Attach resource 'reductstore-license': ".toList
            ++ "permission denied".toList)) ∧
    hasSub "permission denied".toList
        ("Attach resource 'reductstore-license': ".toList
          ++ "permission denied".toList) = true :=
  (C6_blocked_messages ⟨"info".toList, [], []⟩
    ⟨true, .otherError "permission denied".toList, true, true⟩
    "permission denied".toList rfl).2 rfl

/-- C7: when the fetch succeeds but the push raises `APIError`,
`_ensure_license` defers the event, returns failure and sets no status; the
handlers preserve the prior unit status unchanged. -/
theorem C7_push_failure (cfg : Config) (env : Env) (st : CharmState)
    (m a p : List Char)
    (henv : env.can_connect = true)
    (hf : env.fetch = .ok p)
    (hp : env.push_ok = false) :
    ensure_license cfg env = ⟨false, none, true, none⟩ ∧
    on_pebble_ready cfg env st m a = ⟨st.status, true, none, none, false, none⟩ ∧
    on_update_status cfg env st = ⟨st.status, true, none, none, false, none⟩ ∧
    (cfg.log_level.map Char.toLower ∈ VALID_LOG_LEVELS →
      on_config_changed cfg env st m a
        = ⟨st.status, true, none, none, false, none⟩) := by
  have he : ensure_license cfg env = ⟨false, none, true, none⟩ := by
    simp [ensure_license, henv, hf, hp]
  refine ⟨he, ?_, ?_, ?_⟩
  · simp [on_pebble_ready, he]
  · simp [on_update_status, henv, he]
  · intro hll
    simp [on_config_changed, hll, he]

/-- Witness for C7: the prior Active status survives a push failure. -/
theorem C7_push_failure_witness :
    on_pebble_ready ⟨"info".toList, "/lic".toList, []⟩
        ⟨true, .ok "/res".toList, false, true⟩
        ⟨[], .active "prior".toList⟩ "mdl".toList "app".toList
      = ⟨.active "prior".toList, true, none, none, false, none⟩ ∧
    on_config_changed ⟨"info".toList, "/lic".toList, []⟩
        ⟨true, .ok "/res".toList, false, true⟩
        ⟨[], .active "prior".toList⟩ "mdl".toList "app".toList
      = ⟨.active "prior".toList, true, none, none, false, none⟩ := by
  have H := C7_push_failure ⟨"info".toList, "/lic".toList, []⟩
    ⟨true, .ok "/res".toList, false, true⟩ ⟨[], .active "prior".toList⟩
    "mdl".toList "app".toList "/res".toList rfl rfl rfl
  exact ⟨H.2.1, H.2.2.2 (by decide)⟩

/-- C8: ingress ready followed by ingress revoked is a round trip: after
ready(U) the stored URL is U and status is Active mentioning U; after the
subsequent revoked event the stored URL is empty, status is Maintenance
`Waiting for ingress`, and the catalogue item pushed on revoke has an empty
display URL and no endpoint entries. -/
theorem C8_ingress_roundtrip (U : List Char) (cfg : Config) (st : CharmState)
    (m a : List Char) :
    (on_ingress_ready U cfg st m a).1.ingress_url = U ∧
    (on_ingress_ready U cfg st m a).1.status
      = .active ("Ingress at ".toList ++ U) ∧
    hasSub U ("Ingress at ".toList ++ U) = true ∧
    (on_ingress_revoked cfg (on_ingress_ready U cfg st m a).1 m a).1
      = ⟨[], .maintenance "Waiting for ingress".toList⟩ ∧
    (on_ingress_revoked cfg (on_ingress_ready U cfg st m a).1 m a).2.url = [] ∧
    (on_ingress_revoked cfg (on_ingress_ready U cfg st m a).1 m a).2.endpoints
      = [] := by
  refine ⟨rfl, rfl, ?_, rfl, rfl, rfl⟩
  simpa using hasSub_parts "Ingress at ".toList U []

/-- C9 counterexample: with the container unreachable, the periodic
status-check handler does nothing at all — the prior Active status stays,
no Maintenance status surfaces. -/
theorem C9_counterexample :
    on_update_status ⟨"info".toList, [], []⟩
        ⟨false, .ok "/res".toList, true, true⟩ ⟨[], .active "x".toList⟩
      = ⟨.active "x".toList, false, none, none, false, none⟩ ∧
    (on_update_status ⟨"info".toList, [], []⟩
        ⟨false, .ok "/res".toList, true, true⟩ ⟨[], .active "x".toList⟩).status
      ≠ .maintenance "waiting for Pebble API".toList := by
  exact ⟨by decide, by decide⟩

/-- C9 amended: the periodic status-check / upgrade handler never adds a
layer or replans; when the container is unreachable it does nothing (the
status is left untouched, not set to Maintenance); when reachable, a fetch
failure surfaces as Blocked and a successful fetch leaves the status
untouched. -/
theorem C9_update_status_frame (cfg : Config) (env : Env) (st : CharmState) :
    (on_update_status cfg env st).layer = none ∧
    (on_update_status cfg env st).replanned = false ∧
    (env.can_connect = false →
      on_update_status cfg env st = ⟨st.status, false, none, none, false, none⟩) ∧
    (∀ e, env.can_connect = true → env.fetch = .modelError e →
      (on_update_status cfg env st).status
        = .blocked "Attach resource 'reductstore-license'".toList) ∧
    (∀ e, env.can_connect = true → env.fetch = .otherError e →
      (on_update_status cfg env st).status
        = .blocked ("Attach resource 'reductstore-license': ".toList ++ e)) ∧
    (∀ p, env.can_connect = true → env.fetch = .ok p →
      (on_update_status cfg env st).status = st.status) := by
  refine ⟨?_, ?_, ?_, ?_, ?_, ?_⟩
  · cases hcc : env.can_connect <;> simp [on_update_status, hcc]
  · cases hcc : env.can_connect <;> simp [on_update_status, hcc]
  · intro h
    simp [on_update_status, h]
  · intro e hcc hf
    simp [on_update_status, hcc, ensure_license, hf]
  · intro e hcc hf
    simp [on_update_status, hcc, ensure_license, hf]
  · intro p hcc hf
    cases hpo : env.push_ok <;>
      simp [on_update_status, hcc, ensure_license, hf, hpo]

/-- Witness for the C9 amended theorem with an unreachable container. -/
theorem C9_update_status_frame_witness :
    on_update_status ⟨"info".toList, [], []⟩
        ⟨false, .ok "/res".toList, true, true⟩ ⟨[], .active "keep".toList⟩
      = ⟨.active "keep".toList, false, none, none, false, none⟩ :=
  (C9_update_status_frame ⟨"info".toList, [], []⟩
    ⟨false, .ok "/res".toList, true, true⟩ ⟨[], .active "keep".toList⟩).2.2.1 rfl

/-- C10: with `license-path` unset (empty), a successful `_ensure_license`
pushes the license bytes to the default destination `/reduct.lic`, while the
declared run layer sets RS_LICENSE_PATH to the empty string — the two paths
disagree. -/
theorem C10_license_path_mismatch (cfg : Config) (env : Env) (m a : List Char)
    (hlp : cfg.license_path = [])
    (henv : env.can_connect = true)
    (hf : ∃ p, env.fetch = .ok p)
    (hp : env.push_ok = true) :
    (ensure_license cfg env).pushed = some "/reduct.lic".toList ∧
    (pebble_layer cfg m a).rs_license_path = [] ∧
    "/reduct.lic".toList ≠ ([] : List Char) := by
  obtain ⟨p, hfp⟩ := hf
  refine ⟨?_, ?_, by decide⟩
  · simp [ensure_license, henv, hfp, hp, lic_dst, hlp]
  · simp [pebble_layer, hlp]

/-- Witness for C10 at a concrete environment with no configured
license path. -/
theorem C10_license_path_mismatch_witness :
    (ensure_license ⟨"info".toList, [], []⟩
        ⟨true, .ok "/res".toList, true, true⟩).pushed
      = some "/reduct.lic".toList ∧
    (pebble_layer ⟨"info".toList, [], []⟩ "mdl".toList "app".toList).rs_license_path
      = [] ∧
    "/reduct.lic".toList ≠ ([] : List Char) :=
  C10_license_path_mismatch ⟨"info".toList, [], []⟩
    ⟨true, .ok "/res".toList, true, true⟩ "mdl".toList "app".toList
    rfl rfl ⟨"/res".toList, rfl⟩ rfl

end Reductstore
